import Mathlib

/-!
Shallow embedding of the img-sanitizer pipeline
(`src/img_sanitizer/sanitizer.py`, `models/image.py`, `models/report.py`,
`cli.py`).

Bytes are `Nat` values below 256, file contents are `List Nat`, and
filenames are `List Char`.  The SHA-1 implementation below embeds the
reference algorithm used by `hashlib.sha1`.
-/

namespace ImgSanitizer

/-- Truncation to 32 bits. -/
def w32 (x : Nat) : Nat := x % 4294967296

/-- 32-bit left rotation. -/
def rotl (n x : Nat) : Nat := w32 ((x <<< n) ||| (x >>> (32 - n)))

/-- SHA-1 round function, by round index. -/
def sha1F (t b c d : Nat) : Nat :=
  if t < 20 then (b &&& c) ||| ((b ^^^ 4294967295) &&& d)
  else if t < 40 then (b ^^^ c) ^^^ d
  else if t < 60 then ((b &&& c) ||| (b &&& d)) ||| (c &&& d)
  else (b ^^^ c) ^^^ d

/-- SHA-1 round constants, by round index. -/
def sha1K (t : Nat) : Nat :=
  if t < 20 then 1518500249
  else if t < 40 then 1859775393
  else if t < 60 then 2400959708
  else 3395469782

/-- The five 32-bit words of the SHA-1 internal state. -/
structure Sha1State where
  a : Nat
  b : Nat
  c : Nat
  d : Nat
  e : Nat
deriving Repr, DecidableEq

/-- SHA-1 initialization vector. -/
def sha1Init : Sha1State :=
  ⟨1732584193, 4023233417, 2562383102, 271733878, 3285377520⟩

/-- Assemble big-endian 32-bit words from bytes. -/
def bytesToWords : List Nat → List Nat
  | a :: b :: c :: d :: rest => (((a * 256 + b) * 256 + c) * 256 + d) :: bytesToWords rest
  | _ => []

/-- Extend the 16-word block to the 80-word message schedule. -/
def extendWords : List Nat → Nat → List Nat
  | ws, 0 => ws
  | ws, k + 1 =>
    let n := ws.length
    let nw := rotl 1 (((ws.getD (n - 3) 0) ^^^ (ws.getD (n - 8) 0)) ^^^
      ((ws.getD (n - 14) 0) ^^^ (ws.getD (n - 16) 0)))
    extendWords (ws ++ [nw]) k

/-- One SHA-1 round: consumes a (round index, schedule word) pair. -/
def sha1Round (st : Sha1State) (tw : Nat × Nat) : Sha1State :=
  let temp := w32 (rotl 5 st.a + sha1F tw.1 st.b st.c st.d + st.e + sha1K tw.1 + tw.2)
  ⟨temp, st.a, rotl 30 st.b, st.c, st.d⟩

/-- Compress one 64-byte block into the running state. -/
def sha1Block (st : Sha1State) (block : List Nat) : Sha1State :=
  let ws := extendWords (bytesToWords block) 64
  let r := ((List.range 80).zip ws).foldl sha1Round st
  ⟨w32 (st.a + r.a), w32 (st.b + r.b), w32 (st.c + r.c), w32 (st.d + r.d), w32 (st.e + r.e)⟩

/-- Split a byte list into 64-byte blocks; `fuel` bounds the number of
blocks produced (one block consumes at least one byte, so any
`fuel ≥ l.length` is enough). -/
def chunks64Go : Nat → List Nat → List (List Nat)
  | 0, _ => []
  | _, [] => []
  | fuel + 1, l => l.take 64 :: chunks64Go fuel (l.drop 64)

/-- Split a byte list into 64-byte blocks. -/
def chunks64 (l : List Nat) : List (List Nat) := chunks64Go l.length l

/-- Big-endian byte expansion of a number into `k` bytes. -/
def toBytesBE (k : Nat) (x : Nat) : List Nat :=
  (List.range k).map (fun i => (x >>> (8 * (k - 1 - i))) % 256)

/-- SHA-1 message padding: a `0x80` byte, zeros up to 56 mod 64, and the
bit length as an 8-byte big-endian integer. -/
def sha1Pad (msg : List Nat) : List Nat :=
  let len := msg.length
  let zeros := (120 - (len + 1) % 64) % 64
  msg ++ [128] ++ List.replicate zeros 0 ++ toBytesBE 8 (8 * len)

/-- Lowercase hexadecimal digit for a value below 16. -/
def hexChar (n : Nat) : Char := if n < 10 then Char.ofNat (48 + n) else Char.ofNat (87 + n)

/-- Eight lowercase hex characters of a 32-bit word, most significant first. -/
def wordHex (w : Nat) : List Char :=
  [hexChar ((w >>> 28) % 16), hexChar ((w >>> 24) % 16), hexChar ((w >>> 20) % 16),
   hexChar ((w >>> 16) % 16), hexChar ((w >>> 12) % 16), hexChar ((w >>> 8) % 16),
   hexChar ((w >>> 4) % 16), hexChar (w % 16)]

/-- SHA-1 hex digest of a byte sequence: the reference digest computed by
`hashlib.sha1(...).hexdigest()`. -/
def sha1Hex (msg : List Nat) : List Char :=
  let st := (chunks64 (sha1Pad msg)).foldl sha1Block sha1Init
  wordHex st.a ++ wordHex st.b ++ wordHex st.c ++ wordHex st.d ++ wordHex st.e

/-!
The read loop of `Sanitizer._sha1_file`: the file is read in chunks of
`min(buffer_size, remaining)` bytes (`buffer_size` when no sample size is
set); the loop stops on an empty chunk, or once `remaining` drops to zero.
`fuel` bounds the number of iterations: every iteration that does not stop
consumes at least one byte, so `content.length + 1` iterations always
suffice.
-/

/-- The chunked read loop of `Sanitizer._sha1_file`, with explicit fuel. -/
def readGo (bufferSize : Nat) : Nat → List Nat → Option Nat → List Nat
  | 0, _, _ => []
  | fuel + 1, content, remaining =>
    let chunkSize := match remaining with
      | none => bufferSize
      | some r => min bufferSize r
    let chunk := content.take chunkSize
    if chunk.length = 0 then []
    else
      match remaining with
      | none => chunk ++ readGo bufferSize fuel (content.drop chunkSize) none
      | some r =>
        if r - chunk.length = 0 then chunk
        else chunk ++ readGo bufferSize fuel (content.drop chunkSize) (some (r - chunk.length))

/-- The bytes consumed by `Sanitizer._sha1_file` from a file with the given
content, for the given `buffer_size` and `sample_size`. -/
def readBytes (content : List Nat) (bufferSize : Nat) (sampleSize : Option Nat) : List Nat :=
  readGo bufferSize (content.length + 1) content sampleSize

/-- `Sanitizer._sha1_file`: the SHA-1 hex digest of the bytes read from the
file by the chunked loop. -/
def sha1File (content : List Nat) (bufferSize : Nat) (sampleSize : Option Nat) : List Char :=
  sha1Hex (readBytes content bufferSize sampleSize)

/-- The default `buffer_size` of `Sanitizer._sha1_file`. -/
def defaultBuffer : Nat := 65536

/-!  Filename helpers: Python `pathlib` stem/suffix and `str.lower`. -/

/-- ASCII lowercasing of one character, as `str.lower` acts on the ASCII
characters appearing in extensions and digests. -/
def lowerChar (c : Char) : Char :=
  if 65 ≤ c.toNat ∧ c.toNat ≤ 90 then Char.ofNat (c.toNat + 32) else c

/-- ASCII lowercasing of a name. -/
def lowerStr (s : List Char) : List Char := s.map lowerChar

/-- Index of the last dot of a name, if any (Python `str.rfind`). -/
def rfindDot (name : List Char) : Option Nat :=
  match name.reverse.findIdx? (fun c => c = '.') with
  | none => none
  | some j => some (name.length - 1 - j)

/-- `pathlib.PurePath.suffix` of a leaf name: the part from the last dot,
when that dot is neither the first nor the last character. -/
def suffixOf (name : List Char) : List Char :=
  match rfindDot name with
  | none => []
  | some i => if 0 < i ∧ i + 1 < name.length then name.drop i else []

/-- `pathlib.PurePath.stem` of a leaf name: the name with its suffix
removed. -/
def stemOf (name : List Char) : List Char :=
  match rfindDot name with
  | none => name
  | some i => if 0 < i ∧ i + 1 < name.length then name.take i else name

/-!
The destination fingerprint pattern of `Sanitizer.run`:
`re.compile(r"(?:^\d+_)?([a-f0-9]{12})", re.IGNORECASE)`, applied with
`re.search` to each destination file stem.
-/

/-- The character class `[a-f0-9]` under `re.IGNORECASE`. -/
def isHexDigitChar (c : Char) : Bool :=
  (48 ≤ c.toNat && c.toNat ≤ 57) || (97 ≤ c.toNat && c.toNat ≤ 102) ||
    (65 ≤ c.toNat && c.toNat ≤ 70)

/-- The character class `\d` (ASCII digits). -/
def isAsciiDigit (c : Char) : Bool := 48 ≤ c.toNat && c.toNat ≤ 57

/-- Characters that can appear in a SHA-1 hex digest. -/
def isLowerHexChar (c : Char) : Bool :=
  (48 ≤ c.toNat && c.toNat ≤ 57) || (97 ≤ c.toNat && c.toNat ≤ 102)

/-- Match `[a-f0-9]{12}` at the head of `cs`, returning the capture. -/
def hex12At (cs : List Char) : Option (List Char) :=
  if (cs.take 12).length = 12 && (cs.take 12).all isHexDigitChar then some (cs.take 12)
  else none

/-- The `(?:^\d+_)?` alternative tried first at position 0: greedy digits,
an underscore, then the captured 12 hex characters.  Backtracking inside
`\d+` cannot yield another split, since every shorter split puts a digit,
not an underscore, after the digit run. -/
def hexAfterDigits (cs : List Char) : Option (List Char) :=
  if (cs.takeWhile isAsciiDigit).length = 0 then none
  else
    match cs.drop (cs.takeWhile isAsciiDigit).length with
    | '_' :: rest => hex12At rest
    | _ => none

/-- Scan left to right for a position where `[a-f0-9]{12}` matches. -/
def searchGo : List Char → Option (List Char)
  | [] => none
  | c :: rest =>
    match hex12At (c :: rest) with
    | some g => some g
    | none => searchGo rest

/-- `hash_pattern.search(stem).group(1)`: at position 0 the optional
prefixed alternative is preferred; otherwise the leftmost 12-hex-character
run anywhere in the stem is captured. -/
def searchHash (s : List Char) : Option (List Char) :=
  match hexAfterDigits s with
  | some g => some g
  | none => searchGo s

/-!
Pipeline model.  A source entry is anything yielded by
`source.rglob("*")`; a destination entry anything under `dest`.  Paths are
a list of directory components relative to the respective root plus a leaf
name.  The flags `readFails`, `copyFails` and `exifFails` abstract the
environment: whether opening/reading the file raises (always the case for
a non-regular file), whether the `mkdir`/`shutil.copy2` step raises, and
whether the `piexif` load/dump/insert sequence raises.  Destination
contents are not modelled: no observable of the claims depends on them.
-/

/-- A filesystem entry under the source root. -/
structure SrcFile where
  relDir : List (List Char)
  name : List Char
  isFile : Bool
  content : List Nat
  readFails : Bool
  copyFails : Bool
  exifFails : Bool
deriving Repr, DecidableEq

/-- A filesystem entry under the destination root. -/
structure DestFile where
  relDir : List (List Char)
  name : List Char
  isFile : Bool
deriving Repr, DecidableEq

/-- The `Report` counters (`models/report.py`). -/
structure Report where
  copied : Nat
  ignored : Nat
  failed : Nat
deriving Repr, DecidableEq

/-- Componentwise addition of report counters. -/
def Report.add (r s : Report) : Report :=
  ⟨r.copied + s.copied, r.ignored + s.ignored, r.failed + s.failed⟩

/-- The mutable state shared by the run: the report and the destination
tree. -/
structure PState where
  report : Report
  dest : List DestFile
deriving Repr, DecidableEq

/-- The two admissible lowercased extensions. -/
def jpgExts : List (List Char) := [".jpg".toList, ".jpeg".toList]

/-- The filter of `Sanitizer.run`:
`f.suffix.lower() in {".jpg", ".jpeg"}` — and nothing else. -/
def isCandidate (f : SrcFile) : Bool := jpgExts.contains (lowerStr (suffixOf f.name))

/-- The list of files dispatched to the worker pool. -/
def candidateFiles (src : List SrcFile) : List SrcFile := src.filter isCandidate

/-- The destination index of `Sanitizer.run`: lowercased captures of the
fingerprint pattern searched over the stems of regular destination files.
The Python set is modelled as a list used only through membership. -/
def buildIndex (dest : List DestFile) : List (List Char) :=
  (dest.filter (fun e => e.isFile)).filterMap (fun e => (searchHash (stemOf e.name)).map lowerStr)

/-- The digest of a source file computed by `_process_file`. -/
def fileSha (f : SrcFile) (sample : Option Nat) : List Char :=
  sha1File f.content defaultBuffer sample

/-- `Image.short_sha`: the first 12 characters of the digest. -/
def shortSha (f : SrcFile) (sample : Option Nat) : List Char := (fileSha f sample).take 12

/-- `Image.extension`: the lowercased suffix of the source name. -/
def extLower (f : SrcFile) : List Char := lowerStr (suffixOf f.name)

/-- The destination entry written by `_copy_image`: same relative
directory, leaf name `short_sha + extension`. -/
def destEntry (f : SrcFile) (sample : Option Nat) : DestFile :=
  ⟨f.relDir, shortSha f sample ++ extLower f, true⟩

/-- `shutil.copy2` into the destination tree: the entry at the target path
is overwritten. -/
def copyInto (dest : List DestFile) (e : DestFile) : List DestFile :=
  e :: dest.filter (fun p => !(p.relDir == e.relDir && p.name == e.name))

/-- Whether the digest step of `_process_file` succeeds: the entry must be
a regular file that can be opened and read. -/
def digestOk (f : SrcFile) : Bool := f.isFile && !f.readFails

/-- `Sanitizer._process_file`: digest, index check, copy, EXIF cleaning,
with all errors caught.  Note that `_clean_exif` swallows its own error and
increments `failed` itself, after which `_process_file` still increments
`copied`. -/
def processFile (sample : Option Nat) (existing : List (List Char)) (st : PState)
    (f : SrcFile) : PState :=
  if !digestOk f then
    ⟨⟨st.report.copied, st.report.ignored, st.report.failed + 1⟩, st.dest⟩
  else if shortSha f sample ∈ existing then
    ⟨⟨st.report.copied, st.report.ignored + 1, st.report.failed⟩, st.dest⟩
  else if f.copyFails then
    ⟨⟨st.report.copied, st.report.ignored, st.report.failed + 1⟩, st.dest⟩
  else
    let d := copyInto st.dest (destEntry f sample)
    if f.exifFails then
      ⟨⟨st.report.copied + 1, st.report.ignored, st.report.failed + 1⟩, d⟩
    else
      ⟨⟨st.report.copied + 1, st.report.ignored, st.report.failed⟩, d⟩

/-- The report increment contributed by one dispatched file. -/
def fileDelta (sample : Option Nat) (existing : List (List Char)) (f : SrcFile) : Report :=
  if !digestOk f then ⟨0, 0, 1⟩
  else if shortSha f sample ∈ existing then ⟨0, 1, 0⟩
  else if f.copyFails then ⟨0, 0, 1⟩
  else if f.exifFails then ⟨1, 0, 1⟩
  else ⟨1, 0, 0⟩

/-- The destination-tree change contributed by one dispatched file. -/
def destStep (sample : Option Nat) (existing : List (List Char)) (dest : List DestFile)
    (f : SrcFile) : List DestFile :=
  if !digestOk f then dest
  else if shortSha f sample ∈ existing then dest
  else if f.copyFails then dest
  else copyInto dest (destEntry f sample)

/-- `Sanitizer.run`: collect candidates, build the index once, process
each candidate (the counters at run end do not depend on dispatch order,
so the fold is sequential). -/
def runPipeline (src : List SrcFile) (dest0 : List DestFile) (sample : Option Nat) : PState :=
  (candidateFiles src).foldl (processFile sample (buildIndex dest0)) ⟨⟨0, 0, 0⟩, dest0⟩

/-- The `--hash-sample-size` handling of `cli.sanitize`: a truthy
(non-empty) size string is resolved by the external `humanfriendly`
parser, abstracted as `parseSize`; an absent option stays unset. -/
def cliSampleSize (parseSize : List Char → Nat) (arg : Option (List Char)) : Option Nat :=
  match arg with
  | none => none
  | some s => if s.length = 0 then none else some (parseSize s)

/-! Lemmas about the read loop. -/

lemma readGo_succ_none (buf fuel : Nat) (content : List Nat) :
    readGo buf (fuel + 1) content none =
      if (content.take buf).length = 0 then []
      else content.take buf ++ readGo buf fuel (content.drop buf) none := rfl

lemma readGo_succ_some (buf fuel r : Nat) (content : List Nat) :
    readGo buf (fuel + 1) content (some r) =
      if (content.take (min buf r)).length = 0 then []
      else if r - (content.take (min buf r)).length = 0 then content.take (min buf r)
      else content.take (min buf r) ++
        readGo buf fuel (content.drop (min buf r))
          (some (r - (content.take (min buf r)).length)) := rfl

lemma readGo_none_eq (buf : Nat) (hb : 0 < buf) :
    ∀ fuel content, content.length < fuel → readGo buf fuel content none = content := by
  intro fuel
  induction fuel with
  | zero => intro content h; exact absurd h (Nat.not_lt_zero _)
  | succ n ih =>
    intro content h
    rw [readGo_succ_none]
    by_cases hc : (content.take buf).length = 0
    · rw [if_pos hc]
      rw [List.length_take] at hc
      have hz : content.length = 0 := by omega
      exact (List.length_eq_zero.mp hz).symm
    · rw [if_neg hc]
      rw [List.length_take] at hc
      have h2 : (content.drop buf).length < n := by
        rw [List.length_drop]; omega
      rw [ih _ h2, List.take_append_drop]

lemma readGo_some_eq (buf : Nat) (hb : 0 < buf) :
    ∀ fuel content r, content.length < fuel →
      readGo buf fuel content (some r) = content.take r := by
  intro fuel
  induction fuel with
  | zero => intro content r h; exact absurd h (Nat.not_lt_zero _)
  | succ n ih =>
    intro content r h
    rw [readGo_succ_some]
    have hclen : (content.take (min buf r)).length = min (min buf r) content.length :=
      List.length_take _ _
    by_cases hc : (content.take (min buf r)).length = 0
    · rw [if_pos hc]
      rw [hclen] at hc
      have htk : (content.take r).length = 0 := by
        rw [List.length_take]; omega
      exact (List.length_eq_zero.mp htk).symm
    · rw [if_neg hc]
      rw [hclen] at hc
      by_cases hr : r - (content.take (min buf r)).length = 0
      · rw [if_pos hr]
        rw [hclen] at hr
        have hmr : min buf r = r := by omega
        rw [hmr]
      · rw [if_neg hr]
        rw [hclen] at hr
        by_cases hlen : content.length ≤ min buf r
        · have hdrop : content.drop (min buf r) = [] := by
            rw [← List.length_eq_zero, List.length_drop]; omega
          have hn : (0 : Nat) < n := by omega
          rw [hdrop, ih [] _ hn, List.take_nil, List.append_nil]
          rw [List.take_of_length_le hlen, List.take_of_length_le (by omega)]
        · have hm : min (min buf r) content.length = min buf r := by omega
          rw [hclen, hm]
          have h2 : (content.drop (min buf r)).length < n := by
            rw [List.length_drop]; omega
          rw [ih _ _ h2, ← List.take_add]
          congr 1
          omega

lemma readBytes_none (content : List Nat) (buf : Nat) (hb : 0 < buf) :
    readBytes content buf none = content :=
  readGo_none_eq buf hb _ content (Nat.lt_succ_self _)

lemma readBytes_some (content : List Nat) (buf : Nat) (hb : 0 < buf) (n : Nat) :
    readBytes content buf (some n) = content.take n :=
  readGo_some_eq buf hb _ content n (Nat.lt_succ_self _)

/-! Lemmas about the shape of digest strings. -/

lemma isLowerHexChar_hexChar (n : Nat) : isLowerHexChar (hexChar (n % 16)) = true := by
  have h : n % 16 < 16 := Nat.mod_lt _ (by omega)
  have hall : ∀ m, m < 16 → isLowerHexChar (hexChar m) = true := by decide
  exact hall _ h

lemma sha1Hex_length (m : List Nat) : (sha1Hex m).length = 40 := by
  simp [sha1Hex, wordHex]

lemma sha1Hex_all (m : List Nat) : (sha1Hex m).all isLowerHexChar = true := by
  simp [sha1Hex, wordHex, isLowerHexChar_hexChar]

lemma shortSha_length (f : SrcFile) (sample : Option Nat) :
    (shortSha f sample).length = 12 := by
  have h := sha1Hex_length (readBytes f.content defaultBuffer sample)
  simp only [shortSha, fileSha, sha1File, List.length_take]
  omega

lemma shortSha_all (f : SrcFile) (sample : Option Nat) :
    (shortSha f sample).all isLowerHexChar = true := by
  have h := sha1Hex_all (readBytes f.content defaultBuffer sample)
  rw [List.all_eq_true] at h ⊢
  intro c hc
  exact h c (List.mem_of_mem_take hc)

lemma lowerChar_of_lowerHex (c : Char) (h : isLowerHexChar c = true) : lowerChar c = c := by
  unfold lowerChar
  unfold isLowerHexChar at h
  simp only [Bool.or_eq_true, Bool.and_eq_true, decide_eq_true_eq] at h
  rw [if_neg]
  rintro ⟨h1, h2⟩
  omega

lemma lowerStr_of_all_lowerHex (s : List Char) (h : s.all isLowerHexChar = true) :
    lowerStr s = s := by
  unfold lowerStr
  rw [List.all_eq_true] at h
  calc s.map lowerChar = s.map id := List.map_congr_left fun c hc =>
        lowerChar_of_lowerHex c (h c hc)
  _ = s := List.map_id s

lemma hexDigit_of_lowerHex (c : Char) (h : isLowerHexChar c = true) :
    isHexDigitChar c = true := by
  unfold isLowerHexChar at h
  unfold isHexDigitChar
  simp only [Bool.or_eq_true, Bool.and_eq_true, decide_eq_true_eq] at h ⊢
  omega

lemma all_hexDigit_of_all_lowerHex (s : List Char) (h : s.all isLowerHexChar = true) :
    s.all isHexDigitChar = true := by
  rw [List.all_eq_true] at h ⊢
  exact fun c hc => hexDigit_of_lowerHex c (h c hc)

/-! The fingerprint search on a bare 12-character lowercase-hex stem. -/

lemma hex12At_self (g : List Char) (hlen : g.length = 12) (hhex : g.all isHexDigitChar = true) :
    hex12At g = some g := by
  unfold hex12At
  rw [List.take_of_length_le (by omega)]
  rw [if_pos (by simp [hlen, hhex])]

lemma searchGo_self (g : List Char) (hlen : g.length = 12)
    (hhex : g.all isHexDigitChar = true) : searchGo g = some g := by
  cases g with
  | nil => simp at hlen
  | cons c rest =>
    unfold searchGo
    rw [hex12At_self _ hlen hhex]

lemma hexAfterDigits_of_lowerHex (g : List Char) (hhex : g.all isLowerHexChar = true) :
    hexAfterDigits g = none := by
  unfold hexAfterDigits
  by_cases hd : (g.takeWhile isAsciiDigit).length = 0
  · simp [hd]
  · rw [if_neg hd]
    have hdw : g.drop (g.takeWhile isAsciiDigit).length = g.dropWhile isAsciiDigit := by
      nth_rewrite 2 [← List.takeWhile_append_dropWhile (p := isAsciiDigit) (l := g)]
      rw [List.drop_left]
    rw [hdw]
    cases hcase : g.dropWhile isAsciiDigit with
    | nil => rfl
    | cons c rest =>
      have hcg : c ∈ g := List.dropWhile_subset _ (hcase ▸ List.mem_cons_self c rest)
      have hchex : isLowerHexChar c = true := List.all_eq_true.mp hhex c hcg
      have hcd : isAsciiDigit c = false := by
        have := List.head_dropWhile_not isAsciiDigit (l := g)
        rw [hcase] at this
        simpa using this (by simp)
      have hcu : c ≠ '_' := by
        intro he
        subst he
        simp [isLowerHexChar] at hchex
      split
      · rename_i heq
        exact absurd (List.head_eq_of_cons_eq heq) hcu
      · rfl

lemma searchHash_self (g : List Char) (hlen : g.length = 12)
    (hhex : g.all isLowerHexChar = true) : searchHash g = some g := by
  unfold searchHash
  rw [hexAfterDigits_of_lowerHex g hhex]
  exact searchGo_self g hlen (all_hexDigit_of_all_lowerHex g hhex)

/-! Stems and suffixes of copied destination names. -/

lemma rfindDot_append (s rest : List Char) (hrest : ∀ c ∈ rest, c ≠ '.') :
    rfindDot (s ++ '.' :: rest) = some s.length := by
  unfold rfindDot
  have h1 : (rest.reverse).findIdx? (fun c => decide (c = '.')) = none := by
    rw [List.findIdx?_eq_none_iff]
    intro c hc
    simpa using hrest c (List.mem_reverse.mp hc)
  have h2 : ((s ++ '.' :: rest).reverse).findIdx? (fun c => decide (c = '.')) =
      some rest.length := by
    rw [List.reverse_append, List.reverse_cons, List.findIdx?_append, List.findIdx?_append, h1]
    simp
  rw [h2]
  simp only [Option.some.injEq, List.length_append, List.length_cons]
  omega

lemma stemOf_append (s rest : List Char) (hs : s ≠ []) (hr : rest ≠ [])
    (hrest : ∀ c ∈ rest, c ≠ '.') :
    stemOf (s ++ '.' :: rest) = s := by
  unfold stemOf
  rw [rfindDot_append s rest hrest]
  show (if 0 < s.length ∧ s.length + 1 < (s ++ '.' :: rest).length then
    List.take s.length (s ++ '.' :: rest) else s ++ '.' :: rest) = s
  rw [if_pos]
  · exact List.take_left s _
  · refine ⟨List.length_pos.mpr hs, ?_⟩
    have := List.length_pos.mpr hr
    simp only [List.length_append, List.length_cons]
    omega

lemma jpg_chars : ".jpg".toList = '.' :: ['j', 'p', 'g'] := rfl

lemma jpeg_chars : ".jpeg".toList = '.' :: ['j', 'p', 'e', 'g'] := rfl

lemma extLower_of_candidate (f : SrcFile) (hcand : isCandidate f = true) :
    extLower f = ".jpg".toList ∨ extLower f = ".jpeg".toList := by
  unfold isCandidate at hcand
  unfold extLower
  simpa [jpgExts] using hcand

lemma stem_destEntry (f : SrcFile) (sample : Option Nat) (hcand : isCandidate f = true) :
    stemOf (destEntry f sample).name = shortSha f sample := by
  have hs : shortSha f sample ≠ [] := by
    have h12 := shortSha_length f sample
    intro he
    rw [he] at h12
    simp at h12
  show stemOf (shortSha f sample ++ extLower f) = _
  rcases extLower_of_candidate f hcand with h | h
  · rw [h, jpg_chars]
    exact stemOf_append _ _ hs (by decide) (by decide)
  · rw [h, jpeg_chars]
    exact stemOf_append _ _ hs (by decide) (by decide)

/-! The destination index. -/

lemma mem_buildIndex_iff (dest : List DestFile) (h : List Char) :
    h ∈ buildIndex dest ↔
      ∃ e, e ∈ dest ∧ e.isFile = true ∧
        ∃ g, searchHash (stemOf e.name) = some g ∧ h = lowerStr g := by
  unfold buildIndex
  rw [List.mem_filterMap]
  constructor
  · rintro ⟨e, he, hget⟩
    rw [List.mem_filter] at he
    cases hs : searchHash (stemOf e.name) with
    | none => rw [hs] at hget; simp at hget
    | some g =>
      rw [hs] at hget
      simp only [Option.map_some'] at hget
      exact ⟨e, he.1, he.2, g, hs, (Option.some.injEq _ _ ▸ hget).symm⟩
  · rintro ⟨e, he, hf, g, hg, hh⟩
    exact ⟨e, List.mem_filter.mpr ⟨he, hf⟩, by rw [hg, hh]; rfl⟩

lemma shortSha_mem_buildIndex (f : SrcFile) (sample : Option Nat) (dest : List DestFile)
    (hcand : isCandidate f = true) (hmem : destEntry f sample ∈ dest) :
    shortSha f sample ∈ buildIndex dest := by
  rw [mem_buildIndex_iff]
  refine ⟨destEntry f sample, hmem, rfl, shortSha f sample, ?_, ?_⟩
  · rw [stem_destEntry f sample hcand]
    exact searchHash_self _ (shortSha_length f sample) (shortSha_all f sample)
  · rw [lowerStr_of_all_lowerHex _ (shortSha_all f sample)]

/-! Copying and the monotonicity of the index during a run. -/

lemma mem_copyInto_self (dest : List DestFile) (e : DestFile) : e ∈ copyInto dest e :=
  List.mem_cons_self e _

lemma mem_of_mem_copyInto (dest : List DestFile) (e p : DestFile) (hp : p ∈ copyInto dest e) :
    p = e ∨ p ∈ dest := by
  unfold copyInto at hp
  rcases List.mem_cons.mp hp with h | h
  · exact Or.inl h
  · exact Or.inr (List.mem_of_mem_filter h)

lemma buildIndex_mono_copyInto (dest : List DestFile) (e : DestFile) (he : e.isFile = true)
    (h : List Char) (hh : h ∈ buildIndex dest) : h ∈ buildIndex (copyInto dest e) := by
  rw [mem_buildIndex_iff] at hh ⊢
  obtain ⟨p, hp, hpf, g, hg, hhg⟩ := hh
  by_cases hsame : p.relDir = e.relDir ∧ p.name = e.name
  · exact ⟨e, mem_copyInto_self dest e, he, g, by rw [← hsame.2]; exact hg, hhg⟩
  · refine ⟨p, ?_, hpf, g, hg, hhg⟩
    unfold copyInto
    apply List.mem_cons_of_mem
    rw [List.mem_filter]
    refine ⟨hp, ?_⟩
    rw [not_and_or] at hsame
    rcases hsame with hne | hne <;> simp [hne]

/-! The per-file state transition, decomposed into a report increment and
a destination-tree step. -/

lemma processFile_eq (sample : Option Nat) (ex : List (List Char)) (st : PState) (f : SrcFile) :
    processFile sample ex st f =
      ⟨st.report.add (fileDelta sample ex f), destStep sample ex st.dest f⟩ := by
  unfold processFile fileDelta destStep Report.add
  split_ifs <;> simp

lemma foldl_report (sample : Option Nat) (ex : List (List Char)) (l : List SrcFile)
    (st : PState) :
    (l.foldl (processFile sample ex) st).report =
      l.foldl (fun r f => r.add (fileDelta sample ex f)) st.report := by
  induction l generalizing st with
  | nil => rfl
  | cons f l ih => rw [List.foldl_cons, List.foldl_cons, ih, processFile_eq]

lemma foldl_dest (sample : Option Nat) (ex : List (List Char)) (l : List SrcFile)
    (st : PState) :
    (l.foldl (processFile sample ex) st).dest =
      l.foldl (destStep sample ex) st.dest := by
  induction l generalizing st with
  | nil => rfl
  | cons f l ih => rw [List.foldl_cons, List.foldl_cons, ih, processFile_eq]

lemma report_add_right_comm (r a b : Report) : (r.add a).add b = (r.add b).add a := by
  simp only [Report.add, Report.mk.injEq]
  omega

lemma foldl_add_shift (sample : Option Nat) (ex : List (List Char)) (l : List SrcFile)
    (r x : Report) :
    l.foldl (fun r f => r.add (fileDelta sample ex f)) (r.add x) =
      (l.foldl (fun r f => r.add (fileDelta sample ex f)) r).add x := by
  induction l generalizing r with
  | nil => rfl
  | cons f l ih => rw [List.foldl_cons, List.foldl_cons, report_add_right_comm, ih]

/-- Whether a dispatched file takes the branch in which `_clean_exif`
fails after the copy landed: the file is then counted in both `copied`
and `failed`. -/
def doubledB (sample : Option Nat) (ex : List (List Char)) (f : SrcFile) : Bool :=
  if !digestOk f then false
  else if shortSha f sample ∈ ex then false
  else if f.copyFails then false
  else f.exifFails

lemma fileDelta_sum (sample : Option Nat) (ex : List (List Char)) (f : SrcFile) :
    (fileDelta sample ex f).copied + (fileDelta sample ex f).ignored +
      (fileDelta sample ex f).failed = 1 + (if doubledB sample ex f then 1 else 0) := by
  unfold fileDelta doubledB
  split_ifs <;> simp_all

lemma foldl_sum_counters (sample : Option Nat) (ex : List (List Char)) (l : List SrcFile)
    (r0 : Report) :
    (l.foldl (fun r f => r.add (fileDelta sample ex f)) r0).copied +
      (l.foldl (fun r f => r.add (fileDelta sample ex f)) r0).ignored +
      (l.foldl (fun r f => r.add (fileDelta sample ex f)) r0).failed =
      r0.copied + r0.ignored + r0.failed + l.length +
        (l.filter (doubledB sample ex)).length := by
  induction l generalizing r0 with
  | nil => simp
  | cons f l ih =>
    rw [List.foldl_cons, ih, List.filter_cons]
    have hs := fileDelta_sum sample ex f
    by_cases hd : doubledB sample ex f = true
    · rw [if_pos hd] at hs ⊢
      simp only [Report.add, List.length_cons]
      omega
    · rw [if_neg hd] at hs ⊢
      simp only [Report.add, List.length_cons]
      omega

/-! Index growth across a run. -/

lemma buildIndex_mono_destStep (sample : Option Nat) (ex : List (List Char))
    (d : List DestFile) (f : SrcFile) (h : List Char) (hh : h ∈ buildIndex d) :
    h ∈ buildIndex (destStep sample ex d f) := by
  unfold destStep
  split_ifs
  · exact hh
  · exact hh
  · exact hh
  · exact buildIndex_mono_copyInto d _ rfl h hh

lemma buildIndex_mono_foldl (sample : Option Nat) (ex : List (List Char)) (l : List SrcFile)
    (d : List DestFile) (h : List Char) (hh : h ∈ buildIndex d) :
    h ∈ buildIndex (l.foldl (destStep sample ex) d) := by
  induction l generalizing d with
  | nil => exact hh
  | cons f l ih => exact ih _ (buildIndex_mono_destStep sample ex d f h hh)

lemma shortSha_mem_after_destStep (sample : Option Nat) (ex : List (List Char))
    (d : List DestFile) (f : SrcFile) (hcand : isCandidate f = true)
    (hd : digestOk f = true) (hnew : shortSha f sample ∉ ex) (hcp : f.copyFails = false) :
    shortSha f sample ∈ buildIndex (destStep sample ex d f) := by
  unfold destStep
  rw [if_neg (by simp [hd]), if_neg hnew, if_neg (by simp [hcp])]
  exact shortSha_mem_buildIndex f sample _ hcand (mem_copyInto_self _ _)

lemma run1_all_mem (sample : Option Nat) (ex : List (List Char)) (l : List SrcFile)
    (hl : ∀ f ∈ l, isCandidate f = true ∧ digestOk f = true ∧ f.copyFails = false ∧
      shortSha f sample ∉ ex) :
    ∀ st, ∀ f ∈ l,
      shortSha f sample ∈ buildIndex ((l.foldl (processFile sample ex) st).dest) := by
  induction l with
  | nil => intro st f hf; simp at hf
  | cons g l ih =>
    intro st f hf
    rw [List.foldl_cons]
    rcases List.mem_cons.mp hf with he | hm
    · subst he
      obtain ⟨hc, hd, hcp, hnew⟩ := hl f (List.mem_cons_self f l)
      rw [foldl_dest]
      apply buildIndex_mono_foldl
      have hpd : (processFile sample ex st f).dest = destStep sample ex st.dest f := by
        rw [processFile_eq]
      rw [hpd]
      exact shortSha_mem_after_destStep sample ex st.dest f hc hd hnew hcp
    · exact ih (fun p hp => hl p (List.mem_cons_of_mem g hp)) _ f hm

lemma fileDelta_ignored (sample : Option Nat) (ex : List (List Char)) (f : SrcFile)
    (hd : digestOk f = true) (hmem : shortSha f sample ∈ ex) :
    fileDelta sample ex f = ⟨0, 1, 0⟩ := by
  unfold fileDelta
  rw [if_neg (by simp [hd]), if_pos hmem]

lemma foldl_all_ignored (sample : Option Nat) (ex : List (List Char)) (l : List SrcFile)
    (r0 : Report) (h : ∀ f ∈ l, fileDelta sample ex f = ⟨0, 1, 0⟩) :
    l.foldl (fun r f => r.add (fileDelta sample ex f)) r0 =
      ⟨r0.copied, r0.ignored + l.length, r0.failed⟩ := by
  induction l generalizing r0 with
  | nil => simp
  | cons f l ih =>
    rw [List.foldl_cons, h f (List.mem_cons_self f l),
      ih _ (fun p hp => h p (List.mem_cons_of_mem f hp))]
    simp only [Report.add, Report.mk.injEq, List.length_cons]
    omega

/-! Characterization of the fingerprint search. -/

lemma hex12At_some (cs g : List Char) (h : hex12At cs = some g) :
    g.length = 12 ∧ g.all isHexDigitChar = true ∧ cs.take 12 = g := by
  unfold hex12At at h
  split_ifs at h with hc
  · simp only [Bool.and_eq_true, beq_iff_eq, decide_eq_true_eq] at hc
    obtain ⟨h1, h2⟩ := hc
    obtain rfl : cs.take 12 = g := by injection h
    exact ⟨h1, h2, rfl⟩

lemma searchGo_some (s g : List Char) (h : searchGo s = some g) :
    ∃ i, hex12At (s.drop i) = some g := by
  induction s with
  | nil => cases h
  | cons c rest ih =>
    unfold searchGo at h
    cases hc : hex12At (c :: rest) with
    | some g' =>
      rw [hc] at h
      injection h with h
      exact ⟨0, by rw [List.drop_zero, hc, h]⟩
    | none =>
      rw [hc] at h
      obtain ⟨i, hi⟩ := ih h
      exact ⟨i + 1, by simpa using hi⟩

lemma hexAfterDigits_some (s g : List Char) (h : hexAfterDigits s = some g) :
    ∃ i, hex12At (s.drop i) = some g := by
  unfold hexAfterDigits at h
  split_ifs at h with hd
  cases hm : s.drop (s.takeWhile isAsciiDigit).length with
  | nil => rw [hm] at h; cases h
  | cons c rest =>
    rw [hm] at h
    split at h
    · rename_i rest' heq
      injection heq with hc1 hc2
      subst hc1
      subst hc2
      refine ⟨(s.takeWhile isAsciiDigit).length + 1, ?_⟩
      have hdr : s.drop ((s.takeWhile isAsciiDigit).length + 1) = rest := by
        have := congrArg (List.drop 1) hm
        rw [List.drop_drop] at this
        simpa [Nat.add_comm] using this
      rw [hdr]
      exact h
    · cases h

lemma searchHash_some (s g : List Char) (h : searchHash s = some g) :
    g.length = 12 ∧ g.all isHexDigitChar = true ∧ ∃ i, (s.drop i).take 12 = g := by
  have hex : ∃ i, hex12At (s.drop i) = some g := by
    unfold searchHash at h
    cases hh : hexAfterDigits s with
    | some g' =>
      rw [hh] at h
      injection h with h
      subst h
      exact hexAfterDigits_some s g' hh
    | none =>
      rw [hh] at h
      exact searchGo_some s g h
  obtain ⟨i, hi⟩ := hex
  obtain ⟨h1, h2, h3⟩ := hex12At_some _ _ hi
  exact ⟨h1, h2, i, h3⟩

lemma searchGo_none_of (s : List Char) (h : ∀ i, hex12At (s.drop i) = none) :
    searchGo s = none := by
  induction s with
  | nil => rfl
  | cons c rest ih =>
    unfold searchGo
    have h0 : hex12At (c :: rest) = none := by simpa using h 0
    rw [h0]
    exact ih fun i => by simpa using h (i + 1)

lemma searchGo_none_rev (s : List Char) (h : searchGo s = none) :
    ∀ i, hex12At (s.drop i) = none := by
  induction s with
  | nil => intro i; simp [hex12At]
  | cons c rest ih =>
    unfold searchGo at h
    cases hc : hex12At (c :: rest) with
    | some g => rw [hc] at h; cases h
    | none =>
      rw [hc] at h
      intro i
      cases i with
      | zero => simpa using hc
      | succ j => simpa using ih h j

lemma searchHash_none_iff (s : List Char) :
    searchHash s = none ↔ ∀ i, hex12At (s.drop i) = none := by
  constructor
  · intro h
    unfold searchHash at h
    cases hh : hexAfterDigits s with
    | some g => rw [hh] at h; cases h
    | none => rw [hh] at h; exact searchGo_none_rev s h
  · intro h
    unfold searchHash
    cases hh : hexAfterDigits s with
    | some g =>
      obtain ⟨i, hi⟩ := hexAfterDigits_some s g hh
      rw [h i] at hi
      cases hi
    | none => exact searchGo_none_of s h

/-! Provenance of destination entries. -/

lemma dest_provenance (sample : Option Nat) (ex : List (List Char)) (l : List SrcFile)
    (st : PState) (e : DestFile) (he : e ∈ (l.foldl (processFile sample ex) st).dest) :
    e ∈ st.dest ∨ ∃ f ∈ l, e = destEntry f sample := by
  induction l generalizing st with
  | nil => exact Or.inl he
  | cons f l ih =>
    rw [List.foldl_cons] at he
    rcases ih _ he with hin | ⟨g, hg, hge⟩
    · have hpd : (processFile sample ex st f).dest = destStep sample ex st.dest f := by
        rw [processFile_eq]
      rw [hpd] at hin
      unfold destStep at hin
      split_ifs at hin with h1 h2 h3
      · exact Or.inl hin
      · exact Or.inl hin
      · exact Or.inl hin
      · rcases mem_of_mem_copyInto _ _ _ hin with hee | hee
        · exact Or.inr ⟨f, List.mem_cons_self f l, hee⟩
        · exact Or.inl hee
    · exact Or.inr ⟨g, List.mem_cons_of_mem f hg, hge⟩

/-- Whether a leaf name matches `^[0-9a-f]\x7b12\x7d\.(jpg|jpeg)$`: twelve
lowercase hex characters followed by exactly `.jpg` or `.jpeg`. -/
def destNameOk (n : List Char) : Bool :=
  ((n.take 12).length == 12) && (n.take 12).all isLowerHexChar &&
    jpgExts.contains (n.drop 12)

lemma destEntry_nameOk (f : SrcFile) (sample : Option Nat) (hcand : isCandidate f = true) :
    destNameOk (destEntry f sample).name = true ∧
      (destEntry f sample).name.take 12 = shortSha f sample := by
  have hlen := shortSha_length f sample
  have htake : (shortSha f sample ++ extLower f).take 12 = shortSha f sample :=
    List.take_left' hlen
  have hdrop : (shortSha f sample ++ extLower f).drop 12 = extLower f :=
    List.drop_left' hlen
  refine ⟨?_, htake⟩
  show destNameOk (shortSha f sample ++ extLower f) = true
  unfold destNameOk
  rw [htake, hdrop, hlen]
  simp only [beq_self_eq_true, Bool.true_and, Bool.and_eq_true]
  exact ⟨shortSha_all f sample, hcand⟩

/-! Concrete filesystem scenarios used below. -/

/-- The bytes of the string used by the repository's own digest test. -/
def helloWorldBytes : List Nat := [104, 101, 108, 108, 111, 32, 119, 111, 114, 108, 100]

/-- A regular source file whose EXIF cleaning step fails after a
successful copy. -/
def exifFailFile : SrcFile := ⟨[], "a.jpg".toList, true, [], false, false, true⟩

/-- A directory entry carrying a candidate extension. -/
def jpgDirEntry : SrcFile := ⟨[], "photos.jpg".toList, false, [], false, false, false⟩

/-- Two distinct regular files with equal (empty) content, in different
subdirectories. -/
def dupFileA : SrcFile := ⟨["a".toList], "one.jpg".toList, true, [], false, false, false⟩

/-- Companion of `dupFileA` with the same content. -/
def dupFileB : SrcFile := ⟨["b".toList], "two.jpg".toList, true, [], false, false, false⟩

/-- A destination file whose stem embeds a 12-hex run behind two
non-matching characters. -/
def embeddedHexDest : DestFile := ⟨[], "zz0123456789ab.jpg".toList, true⟩

/-- A plain regular source file that processes without error. -/
def plainFile : SrcFile := ⟨[], "img.jpg".toList, true, helloWorldBytes, false, false, false⟩

set_option maxRecDepth 100000

/-! Claim theorems. -/

/-- Claim C1, counterexample: for a file whose copy lands and whose EXIF
cleaning fails, both `copied` and `failed` are incremented, so
`copied + ignored + failed` exceeds the number of candidate files. -/
theorem spec_C1_counterexample :
    ¬ ((runPipeline [exifFailFile] [] none).report.copied +
        (runPipeline [exifFailFile] [] none).report.ignored +
        (runPipeline [exifFailFile] [] none).report.failed =
        (candidateFiles [exifFailFile]).length) := by decide

/-- Claim C1 (amended): at run end `copied + ignored + failed` equals the
number of candidate files plus the number of files that were copied but
whose EXIF cleaning failed — those files are counted toward both `copied`
and `failed`. -/
theorem spec_C1_amended (src : List SrcFile) (dest0 : List DestFile) (sample : Option Nat) :
    (runPipeline src dest0 sample).report.copied +
      (runPipeline src dest0 sample).report.ignored +
      (runPipeline src dest0 sample).report.failed =
      (candidateFiles src).length +
        ((candidateFiles src).filter (doubledB sample (buildIndex dest0))).length := by
  unfold runPipeline
  rw [foldl_report, foldl_sum_counters]
  simp

/-- Claim C2, counterexample: when EXIF cleaning fails after the copy
landed, `copied` is incremented all the same (the claim asserts it is
not), alongside `failed`, and the copy stays in the destination. -/
theorem spec_C2_counterexample :
    ¬ ((runPipeline [exifFailFile] [] none).report.copied = 0) ∧
    (runPipeline [exifFailFile] [] none).report.copied = 1 ∧
    (runPipeline [exifFailFile] [] none).report.failed = 1 ∧
    destEntry exifFailFile none ∈ (runPipeline [exifFailFile] [] none).dest := by decide

/-- Claim C2 (amended): when the EXIF-cleaning step fails for a file whose
copy already landed, no exception reaches the caller, `failed` is
incremented, the copied destination file is left in place — and `copied`
is also incremented, because `_clean_exif` swallows its own error and
`_process_file` then falls through to the `copied` increment. -/
theorem spec_C2_amended (sample : Option Nat) (ex : List (List Char)) (st : PState)
    (f : SrcFile) (hd : digestOk f = true) (hnew : shortSha f sample ∉ ex)
    (hcp : f.copyFails = false) (hxf : f.exifFails = true) :
    processFile sample ex st f =
      ⟨⟨st.report.copied + 1, st.report.ignored, st.report.failed + 1⟩,
        copyInto st.dest (destEntry f sample)⟩ ∧
      destEntry f sample ∈ (processFile sample ex st f).dest := by
  have hdelta : fileDelta sample ex f = ⟨1, 0, 1⟩ := by
    unfold fileDelta
    rw [if_neg (by simp [hd]), if_neg hnew, if_neg (by simp [hcp]), if_pos hxf]
  have hstep : destStep sample ex st.dest f = copyInto st.dest (destEntry f sample) := by
    unfold destStep
    rw [if_neg (by simp [hd]), if_neg hnew, if_neg (by simp [hcp])]
  have hp : processFile sample ex st f =
      ⟨⟨st.report.copied + 1, st.report.ignored, st.report.failed + 1⟩,
        copyInto st.dest (destEntry f sample)⟩ := by
    rw [processFile_eq, hdelta, hstep]
    simp [Report.add]
  refine ⟨hp, ?_⟩
  rw [hp]
  exact mem_copyInto_self _ _

/-- Claim C2, witness: the amended statement at a concrete file. -/
theorem spec_C2_witness :
    processFile none [] ⟨⟨0, 0, 0⟩, []⟩ exifFailFile =
      ⟨⟨0 + 1, 0, 0 + 1⟩, copyInto [] (destEntry exifFailFile none)⟩ ∧
    destEntry exifFailFile none ∈ (processFile none [] ⟨⟨0, 0, 0⟩, []⟩ exifFailFile).dest :=
  spec_C2_amended none [] ⟨⟨0, 0, 0⟩, []⟩ exifFailFile (by decide) (by decide) (by decide)
    (by decide)

/-- Claim C3, counterexample: a stem whose 12-hex run is embedded in the
middle of the stem still contributes a fingerprint to the index, because
the pattern is searched, not anchored. -/
theorem spec_C3_counterexample :
    ¬ (buildIndex [embeddedHexDest] = []) ∧
    buildIndex [embeddedHexDest] = ["0123456789ab".toList] := by decide

/-- Claim C3 (amended): the destination index contains exactly the
lowercased captures of the searched pattern over stems of regular
destination files; every capture is a 12-hex-character substring occurring
at some position of the stem (not necessarily the whole stem), and a stem
contributes nothing exactly when no position of it starts 12 consecutive
hex characters. -/
theorem spec_C3_amended :
    (∀ (dest : List DestFile) (h : List Char),
      h ∈ buildIndex dest ↔ ∃ e, e ∈ dest ∧ e.isFile = true ∧
        ∃ g, searchHash (stemOf e.name) = some g ∧ h = lowerStr g)
    ∧ (∀ (s g : List Char), searchHash s = some g →
        g.length = 12 ∧ g.all isHexDigitChar = true ∧ ∃ i, (s.drop i).take 12 = g)
    ∧ (∀ s : List Char, searchHash s = none ↔ ∀ i, hex12At (s.drop i) = none) :=
  ⟨mem_buildIndex_iff, searchHash_some, searchHash_none_iff⟩

/-- Claim C3, witness: the amended statement applied to the embedded-hex
stem. -/
theorem spec_C3_witness :
    "0123456789ab".toList ∈ buildIndex [embeddedHexDest] ∧
    ("0123456789ab".toList).length = 12 ∧
    (∃ i, ((stemOf embeddedHexDest.name).drop i).take 12 = "0123456789ab".toList) :=
  ⟨(spec_C3_amended.1 [embeddedHexDest] _).mpr
      ⟨embeddedHexDest, by decide, rfl, "0123456789ab".toList, by decide, by decide⟩,
   (spec_C3_amended.2.1 (stemOf embeddedHexDest.name) _ (by decide)).1,
   (spec_C3_amended.2.1 (stemOf embeddedHexDest.name) _ (by decide)).2.2⟩

/-- Claim C4, counterexample: a directory named `photos.jpg` is
dispatched, because `run` filters `rglob` results by suffix only and
never checks `is_file`. -/
theorem spec_C4_counterexample :
    jpgDirEntry ∈ candidateFiles [jpgDirEntry] ∧ jpgDirEntry.isFile = false := by decide

/-- Claim C4 (amended): the dispatched set is exactly the entries — regular
or not — whose lowercased extension is `.jpg` or `.jpeg`; a dispatched
entry that is not a regular file then fails its digest step and is counted
in `failed`. -/
theorem spec_C4_amended :
    (∀ (src : List SrcFile) (f : SrcFile),
      f ∈ candidateFiles src ↔ f ∈ src ∧ lowerStr (suffixOf f.name) ∈ jpgExts)
    ∧ (∀ (sample : Option Nat) (ex : List (List Char)) (st : PState) (f : SrcFile),
        f.isFile = false →
        processFile sample ex st f =
          ⟨⟨st.report.copied, st.report.ignored, st.report.failed + 1⟩, st.dest⟩) := by
  constructor
  · intro src f
    unfold candidateFiles isCandidate
    rw [List.mem_filter]
    simp [List.contains]
  · intro sample ex st f hf
    have hd : digestOk f = false := by unfold digestOk; rw [hf]; rfl
    unfold processFile
    rw [if_pos (by rw [hd]; rfl)]

/-- Claim C4, witness: the amended statement at the directory entry. -/
theorem spec_C4_witness :
    (jpgDirEntry ∈ candidateFiles [jpgDirEntry] ↔ jpgDirEntry ∈ [jpgDirEntry] ∧
      lowerStr (suffixOf jpgDirEntry.name) ∈ jpgExts) ∧
    processFile none [] ⟨⟨0, 0, 0⟩, []⟩ jpgDirEntry = ⟨⟨0, 0, 0 + 1⟩, []⟩ :=
  ⟨spec_C4_amended.1 [jpgDirEntry] jpgDirEntry,
   spec_C4_amended.2 none [] ⟨⟨0, 0, 0⟩, []⟩ jpgDirEntry rfl⟩

/-- Claim C5, counterexample: two new files with equal content (equal
short digest) are both copied in a single sequential run — neither is
ignored, because the in-memory index is never updated as copies land. -/
theorem spec_C5_counterexample :
    ¬ ((runPipeline [dupFileA, dupFileB] [] none).report.copied ≤ 1) ∧
    (runPipeline [dupFileA, dupFileB] [] none).report.ignored = 0 ∧
    shortSha dupFileA none = shortSha dupFileB none := by decide

/-- Claim C5 (amended): in a single run, two candidate files with equal
short digest, neither of which is in the destination index, are both
copied and neither is counted as ignored: the membership check of the
second file still consults the index built before dispatch. -/
theorem spec_C5_amended (f1 f2 : SrcFile) (dest0 : List DestFile) (sample : Option Nat)
    (hc1 : isCandidate f1 = true) (hc2 : isCandidate f2 = true)
    (hd1 : digestOk f1 = true) (hd2 : digestOk f2 = true)
    (hp1 : f1.copyFails = false) (hp2 : f2.copyFails = false)
    (he1 : f1.exifFails = false) (he2 : f2.exifFails = false)
    (heq : shortSha f2 sample = shortSha f1 sample)
    (hnew : shortSha f1 sample ∉ buildIndex dest0) :
    (runPipeline [f1, f2] dest0 sample).report = ⟨2, 0, 0⟩ := by
  unfold runPipeline
  have hcand : candidateFiles [f1, f2] = [f1, f2] := by
    unfold candidateFiles
    rw [List.filter_cons_of_pos hc1, List.filter_cons_of_pos hc2, List.filter_nil]
  rw [hcand, foldl_report]
  have hd1' : fileDelta sample (buildIndex dest0) f1 = ⟨1, 0, 0⟩ := by
    unfold fileDelta
    rw [if_neg (by simp [hd1]), if_neg hnew, if_neg (by simp [hp1]), if_neg (by simp [he1])]
  have hd2' : fileDelta sample (buildIndex dest0) f2 = ⟨1, 0, 0⟩ := by
    unfold fileDelta
    rw [if_neg (by simp [hd2]), if_neg (by rw [heq]; exact hnew), if_neg (by simp [hp2]),
      if_neg (by simp [he2])]
  rw [List.foldl_cons, List.foldl_cons, List.foldl_nil, hd1', hd2']
  rfl

/-- Claim C5, witness: the amended statement at two concrete files of
equal content. -/
theorem spec_C5_witness : (runPipeline [dupFileA, dupFileB] [] none).report = ⟨2, 0, 0⟩ :=
  spec_C5_amended dupFileA dupFileB [] none (by decide) (by decide) (by decide) (by decide)
    (by decide) (by decide) (by decide) (by decide) (by decide) (by decide)

/-- Claim C6: the digest function is deterministic and equals the
reference SHA-1 — with no sample limit it hashes the full content; with
sample limit `N` it hashes exactly the first `min(N, size)` bytes; for
`N ≥ size` it equals the full-file digest; and the digest of
`b"hello world"` begins `2aae6c35c94f`. -/
theorem spec_C6 (content : List Nat) (buffer : Nat) (hb : 0 < buffer) :
    sha1File content buffer none = sha1Hex content ∧
    (∀ n : Nat, sha1File content buffer (some n) = sha1Hex (content.take n)) ∧
    (∀ n : Nat, content.length ≤ n →
      sha1File content buffer (some n) = sha1File content buffer none) ∧
    (sha1Hex helloWorldBytes).take 12 = "2aae6c35c94f".toList := by
  refine ⟨?_, ?_, ?_, ?_⟩
  · unfold sha1File
    rw [readBytes_none content buffer hb]
  · intro n
    unfold sha1File
    rw [readBytes_some content buffer hb n]
  · intro n hn
    unfold sha1File
    rw [readBytes_some content buffer hb n, readBytes_none content buffer hb,
      List.take_of_length_le hn]
  · decide

/-- Claim C6, witness: the digest equalities at the default buffer size. -/
theorem spec_C6_witness :
    (0 < 65536) ∧ sha1File helloWorldBytes 65536 none = sha1Hex helloWorldBytes :=
  ⟨by decide, (spec_C6 helloWorldBytes 65536 (by decide)).1⟩

/-- Claim C7: dedup idempotence — after a first sequential run in which
every candidate file was copied successfully (digest and copy succeed,
none already indexed), a second run over the same source, destination and
sample limit copies nothing and counts every candidate as ignored. -/
theorem spec_C7 (src : List SrcFile) (dest0 : List DestFile) (sample : Option Nat)
    (h : ∀ f ∈ candidateFiles src, digestOk f = true ∧ f.copyFails = false ∧
      shortSha f sample ∉ buildIndex dest0) :
    (runPipeline src (runPipeline src dest0 sample).dest sample).report =
      ⟨0, (candidateFiles src).length, 0⟩ := by
  have hmem : ∀ f ∈ candidateFiles src,
      shortSha f sample ∈ buildIndex ((runPipeline src dest0 sample).dest) := by
    intro f hf
    unfold runPipeline
    refine run1_all_mem sample (buildIndex dest0) (candidateFiles src) ?_ _ f hf
    intro g hg
    obtain ⟨hd, hcp, hnew⟩ := h g hg
    exact ⟨(List.mem_filter.mp hg).2, hd, hcp, hnew⟩
  conv_lhs => unfold runPipeline
  rw [foldl_report, foldl_all_ignored]
  · simp
  · intro f hf
    obtain ⟨hd, _, _⟩ := h f hf
    exact fileDelta_ignored sample _ f hd (hmem f hf)

/-- Claim C7, witness: idempotence on a one-file source over an empty
destination. -/
theorem spec_C7_witness :
    (runPipeline [plainFile] (runPipeline [plainFile] [] none).dest none).report =
      ⟨0, (candidateFiles [plainFile]).length, 0⟩ :=
  spec_C7 [plainFile] [] none (by decide)

/-- Claim C8: every destination entry produced by a run (i.e. not already
present before the run) is the copy of some candidate file; its leaf name
matches twelve lowercase hex characters followed by `.jpg` or `.jpeg`,
and its first 12 characters are that file's short digest. -/
theorem spec_C8 (src : List SrcFile) (dest0 : List DestFile) (sample : Option Nat)
    (e : DestFile) (he : e ∈ (runPipeline src dest0 sample).dest) :
    e ∈ dest0 ∨ ∃ f, f ∈ candidateFiles src ∧ e = destEntry f sample ∧
      destNameOk e.name = true ∧ e.name.take 12 = shortSha f sample := by
  unfold runPipeline at he
  rcases dest_provenance sample _ _ _ e he with h0 | ⟨f, hf, hfe⟩
  · exact Or.inl h0
  · refine Or.inr ⟨f, hf, hfe, ?_, ?_⟩
    · rw [hfe]
      exact (destEntry_nameOk f sample (List.mem_filter.mp hf).2).1
    · rw [hfe]
      exact (destEntry_nameOk f sample (List.mem_filter.mp hf).2).2

/-- Claim C8, witness: the naming facts for the entry copied from a
concrete file. -/
theorem spec_C8_witness :
    destEntry plainFile none ∈ ([] : List DestFile) ∨
    ∃ f, f ∈ candidateFiles [plainFile] ∧ destEntry plainFile none = destEntry f none ∧
      destNameOk (destEntry plainFile none).name = true ∧
      (destEntry plainFile none).name.take 12 = shortSha f none :=
  spec_C8 [plainFile] [] none (destEntry plainFile none) (by decide)

/-- Claim C9: per-file error isolation — a candidate file whose digest
step fails (for instance a non-regular entry), or whose copy step fails
while it is not indexed, contributes exactly one `failed` increment, and
removing it from the source changes neither the other files' counting nor
the destination tree. -/
theorem spec_C9 (pre post : List SrcFile) (f : SrcFile) (dest0 : List DestFile)
    (sample : Option Nat) (hcand : isCandidate f = true)
    (hfail : digestOk f = false ∨
      (shortSha f sample ∉ buildIndex dest0 ∧ f.copyFails = true)) :
    fileDelta sample (buildIndex dest0) f = ⟨0, 0, 1⟩ ∧
    (runPipeline (pre ++ f :: post) dest0 sample).report =
      ((runPipeline (pre ++ post) dest0 sample).report).add ⟨0, 0, 1⟩ ∧
    (runPipeline (pre ++ f :: post) dest0 sample).dest =
      (runPipeline (pre ++ post) dest0 sample).dest := by
  have hdelta : fileDelta sample (buildIndex dest0) f = ⟨0, 0, 1⟩ := by
    unfold fileDelta
    by_cases hd : digestOk f = true
    · rcases hfail with h0 | ⟨hnew, hcp⟩
      · rw [h0] at hd
        cases hd
      · rw [if_neg (by simp [hd]), if_neg hnew, if_pos hcp]
    · have hd' : digestOk f = false := by
        cases hdo : digestOk f
        · rfl
        · exact absurd hdo hd
      rw [if_pos (by rw [hd']; rfl)]
  have hstep : ∀ d, destStep sample (buildIndex dest0) d f = d := by
    intro d
    unfold destStep
    by_cases hd : digestOk f = true
    · rcases hfail with h0 | ⟨hnew, hcp⟩
      · rw [h0] at hd
        cases hd
      · rw [if_neg (by simp [hd]), if_neg hnew, if_pos hcp]
    · have hd' : digestOk f = false := by
        cases hdo : digestOk f
        · rfl
        · exact absurd hdo hd
      rw [if_pos (by rw [hd']; rfl)]
  have hsplit : candidateFiles (pre ++ f :: post) =
      candidateFiles pre ++ f :: candidateFiles post := by
    unfold candidateFiles
    rw [List.filter_append, List.filter_cons_of_pos hcand]
  have hsplit2 : candidateFiles (pre ++ post) =
      candidateFiles pre ++ candidateFiles post := by
    unfold candidateFiles
    rw [List.filter_append]
  refine ⟨hdelta, ?_, ?_⟩
  · unfold runPipeline
    rw [hsplit, hsplit2, foldl_report, foldl_report, List.foldl_append, List.foldl_append,
      List.foldl_cons, hdelta, foldl_add_shift]
  · unfold runPipeline
    rw [hsplit, hsplit2, foldl_dest, foldl_dest, List.foldl_append, List.foldl_append,
      List.foldl_cons, hstep]

/-- Claim C9, witness: isolation of a failing directory entry next to a
file that succeeds. -/
theorem spec_C9_witness :
    fileDelta none (buildIndex []) jpgDirEntry = ⟨0, 0, 1⟩ ∧
    (runPipeline ([] ++ jpgDirEntry :: [plainFile]) [] none).report =
      ((runPipeline ([] ++ [plainFile]) [] none).report).add ⟨0, 0, 1⟩ ∧
    (runPipeline ([] ++ jpgDirEntry :: [plainFile]) [] none).dest =
      (runPipeline ([] ++ [plainFile]) [] none).dest :=
  spec_C9 [] [plainFile] jpgDirEntry [] none (by decide) (Or.inl (by decide))

/-- Claim C10: with sample size 0 the digest function hashes zero bytes
and returns the SHA-1 of the empty byte sequence for every file; and a
size string that parses to zero (such as "0") is truthy, so the CLI
resolves it and passes 0 through to the core rather than treating it as
unset. -/
theorem spec_C10 (p : List Char → Nat) (hp : p "0".toList = 0) (content : List Nat)
    (buffer : Nat) (hb : 0 < buffer) :
    cliSampleSize p (some "0".toList) = some 0 ∧
    sha1File content buffer (some 0) =
      "da39a3ee5e6b4b0d3255bfef95601890afd80709".toList := by
  constructor
  · show (if ("0".toList).length = 0 then none else some (p "0".toList)) = some 0
    rw [if_neg (by decide), hp]
  · unfold sha1File
    rw [readBytes_some content buffer hb 0, List.take_zero]
    decide

/-- Claim C10, witness: the zero-sample digest at a concrete file. -/
theorem spec_C10_witness :
    cliSampleSize (fun _ => 0) (some "0".toList) = some 0 ∧
    sha1File [1, 2, 3] 65536 (some 0) =
      "da39a3ee5e6b4b0d3255bfef95601890afd80709".toList :=
  spec_C10 (fun _ => 0) rfl [1, 2, 3] 65536 (by decide)

end ImgSanitizer
